import Mathlib

/-!
Verification of the pixel-accumulation core of the `resize` crate
(`src/px.rs`).

The internal floating-point type `fpN` (f32 by default) is modelled by the
rationals `ℚ`: every numeric constant appearing in the claims (integer
channel values up to 65535, the weights 0, 0.5, 1, the rounding offset 0.5)
is exactly representable in f32 and the arithmetic performed on them at the
claim-relevant inputs is exact, so `ℚ` is a faithful model there.  For the
saturation behaviour of the narrowing cast (which in Rust also covers NaN
and the infinities) a separate extended value type `FVal` is used.

`u8` and `u16` are modelled by `Fin 256` and `Fin 65536`.
-/

/-- Model of the internal floating-point type `fpN` of `px.rs`. -/
abbrev fpN := ℚ

/-- Model of Rust `u8`. -/
abbrev u8 := Fin 256

/-- Model of Rust `u16`. -/
abbrev u16 := Fin 65536

/-- Pixel struct `rgb::RGB<T>` with channels `r`, `g`, `b`. -/
structure RGB (T : Type) where
  r : T
  g : T
  b : T
deriving DecidableEq, Repr

/-- Pixel struct `rgb::RGBA<T>` with channels `r`, `g`, `b`, `a`. -/
structure RGBA (T : Type) where
  r : T
  g : T
  b : T
  a : T
deriving DecidableEq, Repr

/-- Pixel struct `rgb::alt::Gray<T>`: a one-field tuple struct; its single
field `.0` is named `v` here. -/
structure Gray (T : Type) where
  v : T
deriving DecidableEq, Repr

/-- Rust saturating cast `f as u8` / `.as_()` from a finite float value:
truncation toward zero, clamped into `[0, 255]`.  (For negative inputs both
truncation-then-clamp and `Int.toNat ∘ floor` give `0`, so the floor form
is extensionally the Rust cast on finite values.) -/
def asU8 (q : ℚ) : u8 :=
  ⟨min 255 (Int.toNat ⌊q⌋), by omega⟩

/-- Rust saturating cast `f as u16` from a finite float value. -/
def asU16 (q : ℚ) : u16 :=
  ⟨min 65535 (Int.toNat ⌊q⌋), by omega⟩

/-- The conversion trait `ToFloat` of `px.rs` (`mod f`). -/
class ToFloat (α : Type) where
  to_float : α → fpN
  from_float : fpN → α

export ToFloat (to_float from_float)

/-- `impl ToFloat for u8`: widening is exact; narrowing adds 0.5 and casts. -/
instance instToFloatU8 : ToFloat u8 where
  to_float x := (x.val : ℚ)
  from_float f := asU8 (f + 1/2)

/-- `impl ToFloat for u16`: widening is exact; narrowing adds 0.5 and casts. -/
instance instToFloatU16 : ToFloat u16 where
  to_float x := (x.val : ℚ)
  from_float f := asU16 (f + 1/2)

/-- `impl ToFloat for fpN`: both directions are the identity. -/
instance instToFloatFpN : ToFloat fpN where
  to_float x := x
  from_float f := f

namespace Rgb

/-- `formats::Rgb::new`. -/
def new : RGB fpN := ⟨0, 0, 0⟩

/-- `formats::Rgb::add` (first-axis fold of an input sample). -/
def add {F : Type} [ToFloat F] (acc : RGB fpN) (inp : RGB F) (coeff : fpN) :
    RGB fpN :=
  ⟨acc.r + to_float inp.r * coeff,
   acc.g + to_float inp.g * coeff,
   acc.b + to_float inp.b * coeff⟩

/-- `formats::Rgb::add_acc` (second-axis fold of an accumulator). -/
def add_acc (acc : RGB fpN) (inp : RGB fpN) (coeff : fpN) : RGB fpN :=
  ⟨acc.r + inp.r * coeff, acc.g + inp.g * coeff, acc.b + inp.b * coeff⟩

/-- `formats::Rgb::into_pixel` (finalization). -/
def into_pixel {T : Type} [ToFloat T] (acc : RGB fpN) : RGB T :=
  ⟨from_float acc.r, from_float acc.g, from_float acc.b⟩

end Rgb

namespace Rgba

/-- `formats::Rgba::new`. -/
def new : RGBA fpN := ⟨0, 0, 0, 0⟩

/-- `formats::Rgba::add` (first-axis fold of an input sample). -/
def add {F : Type} [ToFloat F] (acc : RGBA fpN) (inp : RGBA F) (coeff : fpN) :
    RGBA fpN :=
  ⟨acc.r + to_float inp.r * coeff,
   acc.g + to_float inp.g * coeff,
   acc.b + to_float inp.b * coeff,
   acc.a + to_float inp.a * coeff⟩

/-- `formats::Rgba::add_acc` (second-axis fold of an accumulator). -/
def add_acc (acc : RGBA fpN) (inp : RGBA fpN) (coeff : fpN) : RGBA fpN :=
  ⟨acc.r + inp.r * coeff, acc.g + inp.g * coeff,
   acc.b + inp.b * coeff, acc.a + inp.a * coeff⟩

/-- `formats::Rgba::into_pixel` (finalization). -/
def into_pixel {T : Type} [ToFloat T] (acc : RGBA fpN) : RGBA T :=
  ⟨from_float acc.r, from_float acc.g, from_float acc.b, from_float acc.a⟩

end Rgba

namespace RgbaPremultiply

/-- `formats::RgbaPremultiply::new`. -/
def new : RGBA fpN := ⟨0, 0, 0, 0⟩

/-- `formats::RgbaPremultiply::add`: the color channels are weighted by
`a_coeff = inp.a.to_float() * coeff`, and the alpha channel accumulates
`a_coeff` itself. -/
def add {F : Type} [ToFloat F] (acc : RGBA fpN) (inp : RGBA F) (coeff : fpN) :
    RGBA fpN :=
  let a_coeff := to_float inp.a * coeff
  ⟨acc.r + to_float inp.r * a_coeff,
   acc.g + to_float inp.g * a_coeff,
   acc.b + to_float inp.b * a_coeff,
   acc.a + a_coeff⟩

/-- `formats::RgbaPremultiply::add_acc` (second-axis fold). -/
def add_acc (acc : RGBA fpN) (inp : RGBA fpN) (coeff : fpN) : RGBA fpN :=
  ⟨acc.r + inp.r * coeff, acc.g + inp.g * coeff,
   acc.b + inp.b * coeff, acc.a + inp.a * coeff⟩

/-- `formats::RgbaPremultiply::into_pixel`: if the accumulated alpha is
strictly positive the color channels are multiplied by `1 / acc.a` before
conversion and the alpha channel is converted directly; otherwise every
output channel is `from_float 0`. -/
def into_pixel {T : Type} [ToFloat T] (acc : RGBA fpN) : RGBA T :=
  if 0 < acc.a then
    let inv := 1 / acc.a
    ⟨from_float (acc.r * inv), from_float (acc.g * inv),
     from_float (acc.b * inv), from_float acc.a⟩
  else
    let zero : T := from_float 0
    ⟨zero, zero, zero, zero⟩

end RgbaPremultiply

namespace GrayFmt

/-- `formats::Gray::new` (the `PixelFormat` impl for the gray format). -/
def new : Gray fpN := ⟨0⟩

/-- `formats::Gray::add` (first-axis fold of an input sample). -/
def add {F : Type} [ToFloat F] (acc : Gray fpN) (inp : Gray F) (coeff : fpN) :
    Gray fpN :=
  ⟨acc.v + to_float inp.v * coeff⟩

/-- `formats::Gray::add_acc` (second-axis fold of an accumulator). -/
def add_acc (acc : Gray fpN) (inp : Gray fpN) (coeff : fpN) : Gray fpN :=
  ⟨acc.v + inp.v * coeff⟩

/-- `formats::Gray::into_pixel` (finalization). -/
def into_pixel {T : Type} [ToFloat T] (acc : Gray fpN) : Gray T :=
  ⟨from_float acc.v⟩

end GrayFmt

/-- The ordered channel list of an `RGB` accumulator (r, g, b). -/
def RGB.channels (p : RGB fpN) : List fpN := [p.r, p.g, p.b]

/-- The ordered channel list of an `RGBA` accumulator (r, g, b, a). -/
def RGBA.channels (p : RGBA fpN) : List fpN := [p.r, p.g, p.b, p.a]

/-- The ordered channel list of a `Gray` accumulator. -/
def Gray.channels (p : Gray fpN) : List fpN := [p.v]

/-- An extended model of the internal float type that also carries the
non-finite values NaN and ±∞, used to state the saturation behaviour of
the narrowing casts (Rust float-to-integer `as` semantics). -/
inductive FVal where
  | finite (q : ℚ)
  | nan
  | posInf
  | negInf
deriving DecidableEq, Repr

/-- Adding the constant 0.5 to an extended float value: finite values move
by one half, NaN stays NaN, the infinities stay themselves. -/
def FVal.addHalf : FVal → FVal
  | .finite q => .finite (q + 1/2)
  | .nan => .nan
  | .posInf => .posInf
  | .negInf => .negInf

/-- Rust saturating cast `as u8` on an extended float value: NaN casts to
0, +∞ to the maximum, −∞ to 0, finite values truncate toward zero and
clamp into range. -/
def FVal.castU8 : FVal → u8
  | .finite q => asU8 q
  | .nan => 0
  | .posInf => ⟨255, by omega⟩
  | .negInf => 0

/-- Rust saturating cast `as u16` on an extended float value. -/
def FVal.castU16 : FVal → u16
  | .finite q => asU16 q
  | .nan => 0
  | .posInf => ⟨65535, by omega⟩
  | .negInf => 0

/-- `u8::from_float` on the extended value domain: `(f + 0.5).as_()`. -/
def fromFloatExtU8 (f : FVal) : u8 := f.addHalf.castU8

/-- `u16::from_float` on the extended value domain: `(f + 0.5).as_()`. -/
def fromFloatExtU16 (f : FVal) : u16 := f.addHalf.castU16

/-- First-axis accumulation of a weighted row of input samples into a fresh
accumulator, for the gray format (the driver loop of the resampler,
specialised to this core's operations). -/
def GrayFmt.runRow {F : Type} [ToFloat F] (row : List (Gray F × fpN)) : Gray fpN :=
  row.foldl (fun a p => GrayFmt.add a p.1 p.2) GrayFmt.new

/-- Full pipeline for the gray format: first-axis folds per row, second-axis
folds of the row accumulators, finalization. -/
def GrayFmt.resample {F T : Type} [ToFloat F] [ToFloat T]
    (rows : List (List (Gray F × fpN) × fpN)) : Gray T :=
  GrayFmt.into_pixel
    (rows.foldl (fun a rw => GrayFmt.add_acc a (GrayFmt.runRow rw.1) rw.2) GrayFmt.new)

/-- First-axis accumulation of a weighted row of input samples into a fresh
accumulator, for the plain color format. -/
def Rgb.runRow {F : Type} [ToFloat F] (row : List (RGB F × fpN)) : RGB fpN :=
  row.foldl (fun a p => Rgb.add a p.1 p.2) Rgb.new

/-- Full pipeline for the plain color format: first-axis folds per row,
second-axis folds of the row accumulators, finalization. -/
def Rgb.resample {F T : Type} [ToFloat F] [ToFloat T]
    (rows : List (List (RGB F × fpN) × fpN)) : RGB T :=
  Rgb.into_pixel
    (rows.foldl (fun a rw => Rgb.add_acc a (Rgb.runRow rw.1) rw.2) Rgb.new)

/-- The gray view of a weighted color row: keep the weights, keep only the
red channel of every sample. -/
def redRow {F : Type} (row : List (RGB F × fpN)) : List (Gray F × fpN) :=
  row.map fun p => (⟨p.1.r⟩, p.2)

/-- The gray view of a whole weighted-rows input. -/
def redRows {F : Type} (rows : List (List (RGB F × fpN) × fpN)) :
    List (List (Gray F × fpN) × fpN) :=
  rows.map fun rw => (redRow rw.1, rw.2)

theorem floor_nat_add_half (n : ℕ) : ⌊(n : ℚ) + 1/2⌋ = n := by
  rw [Int.floor_eq_iff]
  constructor
  · push_cast
    linarith
  · push_cast
    linarith

theorem fromFloat_u8_eval (q : ℚ) (n : ℕ) (hn : n ≤ 255)
    (h1 : (n : ℚ) ≤ q + 1/2) (h2 : q + 1/2 < n + 1) :
    (from_float q : u8) = ⟨n, by omega⟩ := by
  have hf : ⌊q + 1/2⌋ = (n : ℤ) := by
    rw [Int.floor_eq_iff]
    constructor
    · exact_mod_cast h1
    · push_cast
      linarith
  apply Fin.ext
  show min 255 (Int.toNat ⌊q + 1/2⌋) = n
  rw [hf]
  omega

theorem fromFloat_u16_eval (q : ℚ) (n : ℕ) (hn : n ≤ 65535)
    (h1 : (n : ℚ) ≤ q + 1/2) (h2 : q + 1/2 < n + 1) :
    (from_float q : u16) = ⟨n, by omega⟩ := by
  have hf : ⌊q + 1/2⌋ = (n : ℤ) := by
    rw [Int.floor_eq_iff]
    constructor
    · exact_mod_cast h1
    · push_cast
      linarith
  apply Fin.ext
  show min 65535 (Int.toNat ⌊q + 1/2⌋) = n
  rw [hf]
  omega

theorem fromFloat_natCast_u8 {n : ℕ} (hn : n ≤ 255) :
    (from_float (n : ℚ) : u8) = ⟨n, by omega⟩ := by
  refine fromFloat_u8_eval _ n hn (by linarith) (by linarith)

theorem fromFloat_natCast_u16 {n : ℕ} (hn : n ≤ 65535) :
    (from_float (n : ℚ) : u16) = ⟨n, by omega⟩ := by
  refine fromFloat_u16_eval _ n hn (by linarith) (by linarith)

theorem fromFloat_toFloat_u8 (x : u8) : (from_float (to_float x) : u8) = x := by
  have hx : x.val ≤ 255 := by
    have := x.isLt
    omega
  exact fromFloat_natCast_u8 hx

theorem fromFloat_toFloat_u16 (x : u16) : (from_float (to_float x) : u16) = x := by
  have hx : x.val ≤ 65535 := by
    have := x.isLt
    omega
  exact fromFloat_natCast_u16 hx

theorem fromFloat_zero_u8 : (from_float (0 : ℚ) : u8) = 0 := by
  have h := fromFloat_natCast_u8 (n := 0) (by norm_num)
  simpa using h

/-- C8: widening any legal `u8` value (0–255) or `u16` value (0–65535) to
the internal precision is exact: converting the widened value back yields
precisely the original integer. -/
theorem integer_widening_exact_roundtrip :
    (∀ x : u8, (from_float (to_float x) : u8) = x) ∧
    (∀ x : u16, (from_float (to_float x) : u16) = x) :=
  ⟨fromFloat_toFloat_u8, fromFloat_toFloat_u16⟩

/-- C3: narrowing from internal precision to an 8-bit or 16-bit unsigned
integer adds 0.5 and truncates toward zero (round-half-up); in particular
254.5 narrows to 255 and 254.49 narrows to 254 in 8 bits. -/
theorem integer_narrowing_round_half_up :
    (from_float (509/2 : ℚ) : u8) = 255 ∧
    (from_float (25449/100 : ℚ) : u8) = 254 ∧
    (from_float (509/2 : ℚ) : u16) = 255 ∧
    (∀ q : ℚ, 0 ≤ q + 1/2 → q + 1/2 < 256 →
      ((from_float q : u8) : ℕ) = Int.toNat ⌊q + 1/2⌋) ∧
    (∀ q : ℚ, 0 ≤ q + 1/2 → q + 1/2 < 65536 →
      ((from_float q : u16) : ℕ) = Int.toNat ⌊q + 1/2⌋) := by
  refine ⟨?_, ?_, ?_, ?_, ?_⟩
  · rw [fromFloat_u8_eval (509/2) 255 (by norm_num) (by norm_num) (by norm_num)]
    simp [Fin.ext_iff, Fin.coe_ofNat_eq_mod]
  · rw [fromFloat_u8_eval (25449/100) 254 (by norm_num) (by norm_num) (by norm_num)]
    simp [Fin.ext_iff, Fin.coe_ofNat_eq_mod]
  · rw [fromFloat_u16_eval (509/2) 255 (by norm_num) (by norm_num) (by norm_num)]
    simp [Fin.ext_iff, Fin.coe_ofNat_eq_mod]
  · intro q h0 h256
    show min 255 (Int.toNat ⌊q + 1/2⌋) = Int.toNat ⌊q + 1/2⌋
    have hlow : (0 : ℤ) ≤ ⌊q + 1/2⌋ := by
      exact_mod_cast Int.floor_nonneg.mpr h0
    have hhigh : ⌊q + 1/2⌋ < 256 := by
      have := Int.floor_le (q + 1/2)
      have h2 : (⌊q + 1/2⌋ : ℚ) < 256 := lt_of_le_of_lt this h256
      exact_mod_cast h2
    omega
  · intro q h0 h65536
    show min 65535 (Int.toNat ⌊q + 1/2⌋) = Int.toNat ⌊q + 1/2⌋
    have hlow : (0 : ℤ) ≤ ⌊q + 1/2⌋ := by
      exact_mod_cast Int.floor_nonneg.mpr h0
    have hhigh : ⌊q + 1/2⌋ < 65536 := by
      have := Int.floor_le (q + 1/2)
      have h2 : (⌊q + 1/2⌋ : ℚ) < 65536 := lt_of_le_of_lt this h65536
      exact_mod_cast h2
    omega

/-- Witness for C3: the general round-half-up characterization evaluated at
the concrete internal value 254.5, in both integer widths. -/
theorem integer_narrowing_round_half_up_witness :
    ((from_float (509/2 : ℚ) : u8) : ℕ) = Int.toNat ⌊(509/2 : ℚ) + 1/2⌋ ∧
    ((from_float (509/2 : ℚ) : u16) : ℕ) = Int.toNat ⌊(509/2 : ℚ) + 1/2⌋ :=
  ⟨integer_narrowing_round_half_up.2.2.2.1 (509/2) (by norm_num) (by norm_num),
   integer_narrowing_round_half_up.2.2.2.2 (509/2) (by norm_num) (by norm_num)⟩

/-- C2: a first-axis premultiplied fold with weight `w` uses the effective
weight `to_float inp.a * w` for the three color channels and adds that same
effective weight into the accumulator's alpha channel. -/
theorem premultiply_add_uses_effective_weight {F : Type} [ToFloat F]
    (acc : RGBA fpN) (inp : RGBA F) (w : fpN) :
    RgbaPremultiply.add acc inp w =
      ⟨acc.r + to_float inp.r * (to_float inp.a * w),
       acc.g + to_float inp.g * (to_float inp.a * w),
       acc.b + to_float inp.b * (to_float inp.a * w),
       acc.a + to_float inp.a * w⟩ := rfl

/-- C4: the second-axis folds of all four variants have the identical
channel-wise shape `destination[c] + source[c] * w`. -/
theorem add_acc_uniform_channelwise_shape (w : fpN) :
    (∀ d s : RGB fpN, (Rgb.add_acc d s w).channels =
      List.zipWith (fun dc sc => dc + sc * w) d.channels s.channels) ∧
    (∀ d s : RGBA fpN, (Rgba.add_acc d s w).channels =
      List.zipWith (fun dc sc => dc + sc * w) d.channels s.channels) ∧
    (∀ d s : RGBA fpN, (RgbaPremultiply.add_acc d s w).channels =
      List.zipWith (fun dc sc => dc + sc * w) d.channels s.channels) ∧
    (∀ d s : Gray fpN, (GrayFmt.add_acc d s w).channels =
      List.zipWith (fun dc sc => dc + sc * w) d.channels s.channels) :=
  ⟨fun _ _ => rfl, fun _ _ => rfl, fun _ _ => rfl, fun _ _ => rfl⟩

/-- C6: for every variant, every accumulator state and every input sample,
a first-axis fold with weight 0 leaves the accumulator unchanged. -/
theorem zero_weight_fold_is_identity {F : Type} [ToFloat F] :
    (∀ (acc : RGB fpN) (inp : RGB F), Rgb.add acc inp 0 = acc) ∧
    (∀ (acc : RGBA fpN) (inp : RGBA F), Rgba.add acc inp 0 = acc) ∧
    (∀ (acc : RGBA fpN) (inp : RGBA F), RgbaPremultiply.add acc inp 0 = acc) ∧
    (∀ (acc : Gray fpN) (inp : Gray F), GrayFmt.add acc inp 0 = acc) := by
  refine ⟨fun acc inp => ?_, fun acc inp => ?_, fun acc inp => ?_,
    fun acc inp => ?_⟩ <;>
    simp [Rgb.add, Rgba.add, RgbaPremultiply.add, GrayFmt.add]

/-- C9: folding the plain-RGB 8-bit samples (255,0,0) and (0,255,0) with
weights 0.5 and 0.5 into one fresh accumulator and finalizing to 8-bit
yields (128,128,0): the internal 127.5 rounds up to 128. -/
theorem end_to_end_half_half_blend :
    Rgb.into_pixel (T := u8)
      (Rgb.add (Rgb.add Rgb.new (⟨255, 0, 0⟩ : RGB u8) (1/2))
        (⟨0, 255, 0⟩ : RGB u8) (1/2)) = ⟨128, 128, 0⟩ := by
  have hacc : Rgb.add (Rgb.add Rgb.new (⟨255, 0, 0⟩ : RGB u8) (1/2))
      (⟨0, 255, 0⟩ : RGB u8) (1/2) = ⟨255/2, 255/2, 0⟩ := by
    norm_num [Rgb.add, Rgb.new, to_float, instToFloatU8, Fin.coe_ofNat_eq_mod]
  rw [hacc]
  show RGB.mk (from_float (255/2 : ℚ)) (from_float (255/2 : ℚ))
    (from_float (0 : ℚ)) = (⟨128, 128, 0⟩ : RGB u8)
  rw [fromFloat_u8_eval (255/2) 128 (by norm_num) (by norm_num) (by norm_num),
    fromFloat_zero_u8]
  simp [RGB.mk.injEq, Fin.ext_iff, Fin.coe_ofNat_eq_mod]

/-- C1: premultiplied finalization divides each color channel by the
accumulated alpha when that alpha is strictly positive (the alpha channel
converts directly), and yields the all-zero sample when the accumulated
alpha is zero or negative. -/
theorem premultiply_finalize_unpremultiplies_and_zero_fallback (acc : RGBA fpN) :
    (0 < acc.a →
      RgbaPremultiply.into_pixel (T := u8) acc =
        ⟨from_float (acc.r / acc.a), from_float (acc.g / acc.a),
         from_float (acc.b / acc.a), from_float acc.a⟩ ∧
      RgbaPremultiply.into_pixel (T := fpN) acc =
        ⟨acc.r / acc.a, acc.g / acc.a, acc.b / acc.a, acc.a⟩) ∧
    (acc.a ≤ 0 →
      RgbaPremultiply.into_pixel (T := u8) acc = ⟨0, 0, 0, 0⟩ ∧
      RgbaPremultiply.into_pixel (T := fpN) acc = ⟨0, 0, 0, 0⟩) := by
  constructor
  · intro h
    refine ⟨?_, ?_⟩
    · simp [RgbaPremultiply.into_pixel, if_pos h, div_eq_mul_inv]
    · simp [RgbaPremultiply.into_pixel, if_pos h, div_eq_mul_inv,
        from_float, instToFloatFpN]
  · intro h
    have hnot : ¬ 0 < acc.a := not_lt.mpr h
    refine ⟨?_, ?_⟩
    · simp [RgbaPremultiply.into_pixel, if_neg hnot, fromFloat_zero_u8]
    · simp [RgbaPremultiply.into_pixel, if_neg hnot, from_float, instToFloatFpN]

/-- Witness for C1: both branches of the premultiplied finalization at
concrete accumulators, one with positive alpha and one with zero alpha. -/
theorem premultiply_finalize_witness :
    (RgbaPremultiply.into_pixel (T := u8) (⟨2, 4, 6, 2⟩ : RGBA fpN) =
      ⟨from_float ((2 : ℚ) / 2), from_float ((4 : ℚ) / 2),
       from_float ((6 : ℚ) / 2), from_float (2 : ℚ)⟩) ∧
    (RgbaPremultiply.into_pixel (T := u8) (⟨5, 5, 5, 0⟩ : RGBA fpN) =
      ⟨0, 0, 0, 0⟩) :=
  ⟨((premultiply_finalize_unpremultiplies_and_zero_fallback ⟨2, 4, 6, 2⟩).1
      (by show (0 : ℚ) < 2; norm_num)).1,
   ((premultiply_finalize_unpremultiplies_and_zero_fallback ⟨5, 5, 5, 0⟩).2
      (by show (0 : ℚ) ≤ 0; norm_num)).1⟩

theorem fromFloat_zero_u16 : (from_float (0 : ℚ) : u16) = 0 := by
  have h := fromFloat_natCast_u16 (n := 0) (by norm_num)
  simpa using h

theorem gray_red_row_parity {F : Type} [ToFloat F] (row : List (RGB F × fpN))
    (a : Gray fpN) (c : RGB fpN) (h : a.v = c.r) :
    ((redRow row).foldl (fun x p => GrayFmt.add x p.1 p.2) a).v =
      (row.foldl (fun x p => Rgb.add x p.1 p.2) c).r := by
  induction row generalizing a c with
  | nil => exact h
  | cons hd tl ih =>
      simp only [redRow, List.map_cons, List.foldl_cons]
      exact ih _ _ (by simp [GrayFmt.add, Rgb.add, h])

theorem gray_red_rows_parity {F : Type} [ToFloat F]
    (rows : List (List (RGB F × fpN) × fpN)) (a : Gray fpN) (c : RGB fpN)
    (h : a.v = c.r) :
    ((redRows rows).foldl
        (fun x rw => GrayFmt.add_acc x (GrayFmt.runRow rw.1) rw.2) a).v =
      (rows.foldl (fun x rw => Rgb.add_acc x (Rgb.runRow rw.1) rw.2) c).r := by
  induction rows generalizing a c with
  | nil => exact h
  | cons hd tl ih =>
      simp only [redRows, List.map_cons, List.foldl_cons]
      refine ih _ _ ?_
      have hrow : (GrayFmt.runRow (redRow hd.1)).v = (Rgb.runRow hd.1).r :=
        gray_red_row_parity hd.1 GrayFmt.new Rgb.new rfl
      simp [GrayFmt.add_acc, Rgb.add_acc, h, hrow]

/-- C7: for every nested sequence of weighted rows, the grayscale pipeline
run on the red channels of the inputs produces exactly the red channel of
the plain-color pipeline run on the same weights. -/
theorem gray_parity_with_red_channel {F T : Type} [ToFloat F] [ToFloat T]
    (rows : List (List (RGB F × fpN) × fpN)) :
    (GrayFmt.resample (T := T) (redRows rows)).v =
      (Rgb.resample (T := T) rows).r := by
  simp only [GrayFmt.resample, Rgb.resample, GrayFmt.into_pixel, Rgb.into_pixel]
  rw [gray_red_rows_parity rows GrayFmt.new Rgb.new rfl]

/-- C10: the narrowing conversions to u8 and u16 are total and saturating
on the extended value domain: after the 0.5 offset, values at or above the
maximum produce the maximum, values below zero produce zero, NaN produces
zero, and on finite values the extended conversion agrees with the plain
one (so it never wraps modulo the type width). -/
theorem narrowing_saturates_total :
    (∀ q : ℚ, (255 : ℚ) ≤ q + 1/2 → fromFloatExtU8 (.finite q) = ⟨255, by omega⟩) ∧
    (∀ q : ℚ, q + 1/2 < 0 → fromFloatExtU8 (.finite q) = ⟨0, by omega⟩) ∧
    fromFloatExtU8 .nan = ⟨0, by omega⟩ ∧
    fromFloatExtU8 .posInf = ⟨255, by omega⟩ ∧
    fromFloatExtU8 .negInf = ⟨0, by omega⟩ ∧
    (∀ q : ℚ, fromFloatExtU8 (.finite q) = from_float q) ∧
    (∀ q : ℚ, (65535 : ℚ) ≤ q + 1/2 →
      fromFloatExtU16 (.finite q) = ⟨65535, by omega⟩) ∧
    (∀ q : ℚ, q + 1/2 < 0 → fromFloatExtU16 (.finite q) = ⟨0, by omega⟩) ∧
    fromFloatExtU16 .nan = ⟨0, by omega⟩ ∧
    fromFloatExtU16 .posInf = ⟨65535, by omega⟩ ∧
    fromFloatExtU16 .negInf = ⟨0, by omega⟩ ∧
    (∀ q : ℚ, fromFloatExtU16 (.finite q) = from_float q) := by
  refine ⟨fun q hq => ?_, fun q hq => ?_, rfl, rfl, rfl, fun q => rfl,
    fun q hq => ?_, fun q hq => ?_, rfl, rfl, rfl, fun q => rfl⟩
  · have hfl : (255 : ℤ) ≤ ⌊q + 1/2⌋ := Int.le_floor.mpr (by exact_mod_cast hq)
    apply Fin.ext
    show min 255 (Int.toNat ⌊q + 1/2⌋) = 255
    omega
  · have hfl : ⌊q + 1/2⌋ < 0 := by
      have hle := Int.floor_le (q + 1/2)
      have h2 : (⌊q + 1/2⌋ : ℚ) < 0 := lt_of_le_of_lt hle hq
      exact_mod_cast h2
    apply Fin.ext
    show min 255 (Int.toNat ⌊q + 1/2⌋) = 0
    omega
  · have hfl : (65535 : ℤ) ≤ ⌊q + 1/2⌋ := Int.le_floor.mpr (by exact_mod_cast hq)
    apply Fin.ext
    show min 65535 (Int.toNat ⌊q + 1/2⌋) = 65535
    omega
  · have hfl : ⌊q + 1/2⌋ < 0 := by
      have hle := Int.floor_le (q + 1/2)
      have h2 : (⌊q + 1/2⌋ : ℚ) < 0 := lt_of_le_of_lt hle hq
      exact_mod_cast h2
    apply Fin.ext
    show min 65535 (Int.toNat ⌊q + 1/2⌋) = 0
    omega

/-- Witness for C10: saturation of the extended narrowing conversions at
the concrete out-of-range finite values 1000 and −10. -/
theorem narrowing_saturates_total_witness :
    fromFloatExtU8 (.finite 1000) = ⟨255, by omega⟩ ∧
    fromFloatExtU8 (.finite (-10)) = ⟨0, by omega⟩ ∧
    fromFloatExtU16 (.finite 100000) = ⟨65535, by omega⟩ ∧
    fromFloatExtU16 (.finite (-10)) = ⟨0, by omega⟩ :=
  ⟨narrowing_saturates_total.1 1000 (by norm_num),
   narrowing_saturates_total.2.1 (-10) (by norm_num),
   narrowing_saturates_total.2.2.2.2.2.2.1 100000 (by norm_num),
   narrowing_saturates_total.2.2.2.2.2.2.2.1 (-10) (by norm_num)⟩
